import Mathlib

/-
Shallow embedding of the `circular_buffer` crate (src/lib.rs): a
fixed-capacity overwrite-on-full circular buffer (`CircularBuffer<T>`)
and a fixed-capacity ring-backed FIFO queue (`StaticSizeQueue<T>`).

Modelling conventions:
  * `Vec<T>` backing storage is a `List α`; the Rust bound `T: Default`
    becomes `[Inhabited α]` and `T::default()` becomes `default`.
  * `usize` arithmetic is `Nat`; no operation here can overflow a `usize`
    in a way that matters (only `+ 1` and `%`).
  * A Rust panic (a failed `assert!`, or `%` by zero) is modelled by an
    `Option` result: `none` is the panic.
  * `&mut self` methods returning `Result` become functions from the
    state to a pair of the `Except` result and the updated state.
-/

set_option maxHeartbeats 1000000

structure CircularBuffer (α : Type) where
  buf : List α
  cap : Nat
  tail : Nat
  len : Nat
  deriving DecidableEq

/-- Construction of the `CircularBuffer` record built by `CircularBuffer::new`
once the `assert!(cap > 0)` has passed: `cap` default-valued slots,
`tail = cap - 1`, `len = 0`. -/
def CircularBuffer.mk0 (α : Type) [Inhabited α] (cap : Nat) : CircularBuffer α :=
  { buf := List.replicate cap default, cap := cap, tail := cap - 1, len := 0 }

/-- Rust `CircularBuffer::new(cap)`: `assert!(cap > 0, ...)` panics on
`cap == 0` (modelled as `none`); otherwise returns the fresh buffer. -/
def CircularBuffer.new (α : Type) [Inhabited α] (cap : Nat) : Option (CircularBuffer α) :=
  if cap > 0 then some (CircularBuffer.mk0 α cap) else none

/-- Rust `CircularBuffer::insert`: `len = min(cap, len + 1)`,
`tail = (tail + 1) % cap`, then `buf[tail] = item`. -/
def CircularBuffer.insert {α : Type} (b : CircularBuffer α) (item : α) : CircularBuffer α :=
  let tail' := (b.tail + 1) % b.cap
  { b with len := min b.cap (b.len + 1), tail := tail', buf := b.buf.set tail' item }

/-- Rust `CircularBuffer::peek_tail`: `Some(&buf[tail])` when `len > 0`,
else `None`. -/
def CircularBuffer.peek_tail {α : Type} [Inhabited α] (b : CircularBuffer α) : Option α :=
  if 0 < b.len then some (b.buf.getD b.tail default) else none

/-- Rust `CircularBuffer::head`: `(tail + len + 1) % len`.  The `%` is by
`self.len`, so the call panics (integer remainder by zero) when `len == 0`;
the panic is modelled as `none`. -/
def CircularBuffer.head {α : Type} (b : CircularBuffer α) : Option Nat :=
  if b.len = 0 then none else some ((b.tail + b.len + 1) % b.len)

/-- Rust `CircularBuffer::peek_from_end(len_from_tail)`, transcribed
branch for branch. -/
def CircularBuffer.peek_from_end {α : Type} [Inhabited α]
    (b : CircularBuffer α) (len_from_tail : Nat) : Option α :=
  if len_from_tail > b.len then none
  else if len_from_tail > b.tail then
    if b.len ≠ b.cap then none
    else some (b.buf.getD (b.cap - (len_from_tail - b.tail)) default)
  else some (b.buf.getD (b.tail - len_from_tail) default)

/-- Rust `CircularBuffer::peek_head`: `Some(&buf[self.head()])` when
`len > 0`, else `None` (the guard makes the inner `head()` call safe). -/
def CircularBuffer.peek_head {α : Type} [Inhabited α] (b : CircularBuffer α) : Option α :=
  if 0 < b.len then b.head.map (fun i => b.buf.getD i default) else none

/-- Rust `impl Index<usize> for CircularBuffer`: asserts `index < len`
(panic modelled as `none`), then returns `&buf[(self.head() + index) % self.len]`. -/
def CircularBuffer.index {α : Type} [Inhabited α] (b : CircularBuffer α) (i : Nat) : Option α :=
  if i < b.len then b.head.map (fun h => b.buf.getD ((h + i) % b.len) default) else none

/-- Folding `insert` over a list of values: the buffer after inserting
`vs` left to right. -/
def CircularBuffer.insertList {α : Type} (b : CircularBuffer α) (vs : List α) : CircularBuffer α :=
  vs.foldl CircularBuffer.insert b

inductive QueueError where
  | QueueEmpty
  | QueueFull
  deriving DecidableEq

structure StaticSizeQueue (α : Type) where
  buff : List α
  front : Nat
  size : Nat
  back : Nat
  cap : Nat
  deriving DecidableEq

/-- Rust `StaticSizeQueue::new(cap)`: no capacity validation at all;
allocates `cap` default slots, `front = back = size = 0`. -/
def StaticSizeQueue.new (α : Type) [Inhabited α] (cap : Nat) : StaticSizeQueue α :=
  { buff := List.replicate cap default, front := 0, size := 0, back := 0, cap := cap }

/-- Rust `StaticSizeQueue::is_empty`: `size == 0`. -/
def StaticSizeQueue.is_empty {α : Type} (q : StaticSizeQueue α) : Bool :=
  q.size == 0

/-- Rust `StaticSizeQueue::pop`: `QueueEmpty` when `is_empty()` (the state
is untouched); otherwise `mem_take` the front slot (leaving `T::default()`),
advance `front` modulo `cap`, decrement `size`. -/
def StaticSizeQueue.pop {α : Type} [Inhabited α]
    (q : StaticSizeQueue α) : Except QueueError α × StaticSizeQueue α :=
  if q.is_empty then (Except.error QueueError.QueueEmpty, q)
  else (Except.ok (q.buff.getD q.front default),
    { q with buff := q.buff.set q.front default,
             front := (q.front + 1) % q.cap,
             size := q.size - 1 })

/-- Rust `StaticSizeQueue::push`: `QueueFull` when `size == cap` (the
state is untouched and the item is not enqueued); otherwise write the item
at `back`, advance `back` modulo `cap`, increment `size`. -/
def StaticSizeQueue.push {α : Type} (q : StaticSizeQueue α) (item : α) :
    Except QueueError Unit × StaticSizeQueue α :=
  if q.size = q.cap then (Except.error QueueError.QueueFull, q)
  else (Except.ok (),
    { q with buff := q.buff.set q.back item,
             back := (q.back + 1) % q.cap,
             size := q.size + 1 })

/-- Pushing a list of values left to right, stopping at the first error. -/
def StaticSizeQueue.pushList {α : Type} (q : StaticSizeQueue α) :
    List α → Except QueueError Unit × StaticSizeQueue α
  | [] => (Except.ok (), q)
  | v :: vs =>
    match q.push v with
    | (Except.ok _, q') => q'.pushList vs
    | (Except.error e, q') => (Except.error e, q')

/-- Popping `n` times, collecting the values, stopping at the first error. -/
def StaticSizeQueue.popN {α : Type} [Inhabited α] (q : StaticSizeQueue α) :
    Nat → Except QueueError (List α) × StaticSizeQueue α
  | 0 => (Except.ok [], q)
  | n + 1 =>
    match q.pop with
    | (Except.ok v, q') =>
      match q'.popN n with
      | (Except.ok l, q'') => (Except.ok (v :: l), q'')
      | (Except.error e, q'') => (Except.error e, q'')
    | (Except.error e, q') => (Except.error e, q')

/-- Abstraction relation between a `StaticSizeQueue` state and the list of
values it logically holds, front first: the storage spans the capacity, the
front index is in range, the size matches, the back index sits `size` slots
after the front (modulo capacity), and slot `(front + j) % cap` holds the
`j`-th logical element. -/
def SQInv {α : Type} [Inhabited α] (q : StaticSizeQueue α) (l : List α) : Prop :=
  q.buff.length = q.cap
  ∧ q.front < q.cap
  ∧ q.size = l.length
  ∧ l.length ≤ q.cap
  ∧ q.back = (q.front + l.length) % q.cap
  ∧ ∀ j, j < l.length → q.buff.getD ((q.front + j) % q.cap) default = l.getD j default

/-- Reading a slot just written: `(l.set i a).getD i d = a` for `i` in range. -/
theorem getD_set_self {α : Type} (l : List α) (i : Nat) (a d : α) (h : i < l.length) :
    (l.set i a).getD i d = a := by
  simp [List.getD_eq_getElem?_getD, List.getElem?_set, h]

/-- Reading a slot other than the one just written. -/
theorem getD_set_ne {α : Type} (l : List α) (i j : Nat) (a d : α) (h : i ≠ j) :
    (l.set i a).getD j d = l.getD j d := by
  simp [List.getD_eq_getElem?_getD, List.getElem?_set, h]

/-- Reading inside the left part of an append. -/
theorem getD_append_left {α : Type} (l l' : List α) (i : Nat) (d : α) (h : i < l.length) :
    (l ++ l').getD i d = l.getD i d := by
  simp [List.getD_eq_getElem?_getD, List.getElem?_append, h]

/-- Reading the appended last element. -/
theorem getD_append_last {α : Type} (l : List α) (a d : α) :
    (l ++ [a]).getD l.length d = a := by
  simp [List.getD_eq_getElem?_getD]

/-- Two residues `(k - j) % c` and `k % c` differ when `1 ≤ j < c` and `j ≤ k`. -/
theorem mod_sub_ne_mod (k j c : Nat) (hc : 0 < c) (h1 : 1 ≤ j) (h2 : j < c) (h3 : j ≤ k) :
    (k - j) % c ≠ k % c := by
  intro h
  have h4 : k - j ≡ k [MOD c] := h
  have h5 := (Nat.modEq_iff_dvd' (Nat.sub_le k j)).mp h4
  have h6 : k - (k - j) = j := by omega
  rw [h6] at h5
  have h7 := Nat.le_of_dvd (by omega) h5
  omega

/-- Subtracting within the current residue: `(a - j) % c = a % c - j` when `j ≤ a % c`. -/
theorem sub_mod_of_le (a j c : Nat) (hc : 0 < c) (hj : j ≤ a % c) :
    (a - j) % c = a % c - j := by
  have hd : c * (a / c) + a % c = a := Nat.div_add_mod a c
  have hr : a % c < c := Nat.mod_lt a hc
  have h1 : a - j = c * (a / c) + (a % c - j) := by omega
  rw [h1, Nat.mul_add_mod, Nat.mod_eq_of_lt (by omega)]

/-- Subtracting past the current residue wraps: `(a - j) % c = c - (j - a % c)`
when `a % c < j < c ≤ a`. -/
theorem sub_mod_of_gt (a j c : Nat) (hc : 0 < c) (ha : c ≤ a) (hj1 : a % c < j) (hj2 : j < c) :
    (a - j) % c = c - (j - a % c) := by
  have hd : c * (a / c) + a % c = a := Nat.div_add_mod a c
  have hr : a % c < c := Nat.mod_lt a hc
  have hq : a / c ≠ 0 := by
    intro h0
    rw [h0, Nat.mul_zero, Nat.zero_add] at hd
    omega
  obtain ⟨q', hq'⟩ := Nat.exists_eq_succ_of_ne_zero hq
  rw [hq', Nat.mul_succ] at hd
  have h1 : a - j = c * q' + (c + a % c - j) := by omega
  rw [h1, Nat.mul_add_mod, Nat.mod_eq_of_lt (by omega)]
  omega

/-- Master invariant of the circular buffer reached by inserting the values
`vs` (in order) into a fresh buffer of capacity `c ≥ 1`: the capacity and
storage length stay `c`, the length is `min vs.length c`, the tail index is
`(c - 1 + vs.length) % c`, and for every lookback depth `j` within the
retained window the slot `(vs.length - 1 - j) % c` holds the value inserted
`j` steps before the last one. -/
theorem CircularBuffer.insertList_spec {α : Type} [Inhabited α] (c : Nat) (hc : 0 < c)
    (vs : List α) :
    (CircularBuffer.insertList (CircularBuffer.mk0 α c) vs).cap = c
    ∧ (CircularBuffer.insertList (CircularBuffer.mk0 α c) vs).buf.length = c
    ∧ (CircularBuffer.insertList (CircularBuffer.mk0 α c) vs).len = min vs.length c
    ∧ (CircularBuffer.insertList (CircularBuffer.mk0 α c) vs).tail = (c - 1 + vs.length) % c
    ∧ ∀ j, j < min vs.length c →
        (CircularBuffer.insertList (CircularBuffer.mk0 α c) vs).buf.getD
            ((vs.length - 1 - j) % c) default
          = vs.getD (vs.length - 1 - j) default := by
  induction vs using List.reverseRecOn with
  | nil =>
    simp only [CircularBuffer.insertList, List.foldl_nil, List.length_nil]
    refine ⟨rfl, by simp [CircularBuffer.mk0], by simp [CircularBuffer.mk0], ?_, ?_⟩
    · show c - 1 = (c - 1 + 0) % c
      rw [Nat.add_zero, Nat.mod_eq_of_lt (by omega)]
    · intro j hj
      exact absurd hj (by omega)
  | append_singleton l a ih =>
    obtain ⟨h1, h2, h3, h4, h5⟩ := ih
    have hstep : CircularBuffer.insertList (CircularBuffer.mk0 α c) (l ++ [a])
        = (CircularBuffer.insertList (CircularBuffer.mk0 α c) l).insert a := by
      simp [CircularBuffer.insertList, List.foldl_append]
    set b := CircularBuffer.insertList (CircularBuffer.mk0 α c) l with hb
    set k := l.length with hk
    have htail : (b.tail + 1) % b.cap = k % c := by
      rw [h4, h1, Nat.mod_add_mod, show c - 1 + k + 1 = k + c by omega, Nat.add_mod_right]
    have hins_cap : (b.insert a).cap = b.cap := rfl
    have hins_len : (b.insert a).len = min b.cap (b.len + 1) := rfl
    have hins_tail : (b.insert a).tail = (b.tail + 1) % b.cap := rfl
    have hins_buf : (b.insert a).buf = b.buf.set ((b.tail + 1) % b.cap) a := rfl
    rw [hstep]
    refine ⟨by rw [hins_cap, h1], ?_, ?_, ?_, ?_⟩
    · rw [hins_buf, List.length_set, h2]
    · rw [hins_len, h1, h3]
      simp only [List.length_append, List.length_singleton]
      omega
    · rw [hins_tail, htail]
      simp only [List.length_append, List.length_singleton]
      rw [show c - 1 + (k + 1) = k + c by omega, Nat.add_mod_right]
    · intro j hj
      simp only [List.length_append, List.length_singleton] at hj ⊢
      have hidx : k + 1 - 1 - j = k - j := by omega
      rw [hins_buf, htail, hidx]
      rcases Nat.eq_zero_or_pos j with hj0 | hj1
      · subst hj0
        simp only [Nat.sub_zero]
        rw [getD_set_self _ _ _ _ (by rw [h2]; exact Nat.mod_lt _ hc)]
        exact (getD_append_last l a default).symm
      · have hjk : j ≤ k := by omega
        have hjc : j < c := by omega
        have hne : (k % c) ≠ ((k - j) % c) := Ne.symm (mod_sub_ne_mod k j c hc hj1 hjc hjk)
        rw [getD_set_ne _ _ _ _ _ hne]
        have hlt : j - 1 < min k c := by omega
        have h5' := h5 (j - 1) hlt
        have e1 : k - 1 - (j - 1) = k - j := by omega
        rw [e1] at h5'
        rw [h5']
        exact (getD_append_left l [a] (k - j) default (by omega)).symm

/-- C4: after `k` inserts into a fresh buffer of capacity `c ≥ 1`, the length
is `min k c`; moreover the tail index stays below `c` and the backing storage
keeps length `c`, so the modulus and the slot write in `insert` can never
fail — `insert` has no failure path. -/
theorem insert_length_saturates {α : Type} [Inhabited α] (c : Nat) (hc : 0 < c)
    (vs : List α) :
    (CircularBuffer.insertList (CircularBuffer.mk0 α c) vs).len = min vs.length c
    ∧ (CircularBuffer.insertList (CircularBuffer.mk0 α c) vs).tail < c
    ∧ (CircularBuffer.insertList (CircularBuffer.mk0 α c) vs).buf.length = c := by
  obtain ⟨h1, h2, h3, h4, h5⟩ := CircularBuffer.insertList_spec c hc vs
  exact ⟨h3, by rw [h4]; exact Nat.mod_lt _ hc, h2⟩

/-- Witness for C4 at capacity 3 and five inserts. -/
theorem insert_length_saturates_witness :
    (CircularBuffer.insertList (CircularBuffer.mk0 Int 3) [1, 2, 3, 4, 5]).len
        = min [1, 2, 3, 4, 5].length 3
    ∧ (CircularBuffer.insertList (CircularBuffer.mk0 Int 3) [1, 2, 3, 4, 5]).tail < 3
    ∧ (CircularBuffer.insertList (CircularBuffer.mk0 Int 3) [1, 2, 3, 4, 5]).buf.length = 3 :=
  insert_length_saturates 3 (by omega) [1, 2, 3, 4, 5]

/-- C3: after `k > c` inserts `v1..vk` into a fresh buffer of capacity
`c ≥ 1`, `peek_from_end j` returns `v(k-j)` for every `j < c` (`j = 0` gives
the last inserted value `vk`). -/
theorem peek_from_end_lookback {α : Type} [Inhabited α] (c : Nat) (hc : 0 < c)
    (vs : List α) (hk : c < vs.length) (j : Nat) (hj : j < c) :
    (CircularBuffer.insertList (CircularBuffer.mk0 α c) vs).peek_from_end j
      = some (vs.getD (vs.length - 1 - j) default) := by
  obtain ⟨h1, h2, h3, h4, h5⟩ := CircularBuffer.insertList_spec c hc vs
  have hlen : (CircularBuffer.insertList (CircularBuffer.mk0 α c) vs).len = c := by
    rw [h3]; omega
  have htail : (CircularBuffer.insertList (CircularBuffer.mk0 α c) vs).tail
      = (vs.length - 1) % c := by
    rw [h4, show c - 1 + vs.length = (vs.length - 1) + c by omega, Nat.add_mod_right]
  have h5j := h5 j (by omega)
  simp only [CircularBuffer.peek_from_end]
  rw [hlen, htail, h1, if_neg (by omega)]
  by_cases hcase : j > (vs.length - 1) % c
  · rw [if_pos hcase, if_neg (by omega)]
    rw [← sub_mod_of_gt (vs.length - 1) j c hc (by omega) hcase hj]
    rw [h5j]
  · rw [if_neg hcase]
    rw [← sub_mod_of_le (vs.length - 1) j c hc (by omega)]
    rw [h5j]

/-- Witness for C3: the spec's concrete scenario, capacity 10 and inserts
1..13, at lookback 2 (expected value 11). -/
theorem peek_from_end_lookback_witness :
    (CircularBuffer.insertList (CircularBuffer.mk0 Int 10)
        [1, 2, 3, 4, 5, 6, 7, 8, 9, 10, 11, 12, 13]).peek_from_end 2
      = some ([1, 2, 3, 4, 5, 6, 7, 8, 9, 10, 11, 12, 13].getD
          ([1, 2, 3, 4, 5, 6, 7, 8, 9, 10, 11, 12, 13].length - 1 - 2) default) :=
  peek_from_end_lookback (α := Int) 10 (by omega) [1, 2, 3, 4, 5, 6, 7, 8, 9, 10, 11, 12, 13]
    (by decide) 2 (by omega)

/-- C5: `peek_tail` after any non-empty insertion sequence returns the last
inserted value; for a freshly full buffer (`c` inserts `v1..vc`),
`peek_head` returns `v1` and `peek_tail` returns `vc`; both return `none`
on the fresh (empty) buffer. -/
theorem peek_tail_peek_head_spec {α : Type} [Inhabited α] (c : Nat) (hc : 0 < c)
    (vs : List α) :
    (vs ≠ [] →
      (CircularBuffer.insertList (CircularBuffer.mk0 α c) vs).peek_tail
        = some (vs.getD (vs.length - 1) default))
    ∧ (vs.length = c →
        (CircularBuffer.insertList (CircularBuffer.mk0 α c) vs).peek_head
            = some (vs.getD 0 default)
        ∧ (CircularBuffer.insertList (CircularBuffer.mk0 α c) vs).peek_tail
            = some (vs.getD (c - 1) default))
    ∧ (CircularBuffer.mk0 α c).peek_tail = none
    ∧ (CircularBuffer.mk0 α c).peek_head = none := by
  obtain ⟨h1, h2, h3, h4, h5⟩ := CircularBuffer.insertList_spec c hc vs
  have htail_fact : vs ≠ [] →
      (CircularBuffer.insertList (CircularBuffer.mk0 α c) vs).peek_tail
        = some (vs.getD (vs.length - 1) default) := by
    intro hne
    have hk1 : 1 ≤ vs.length := List.length_pos.mpr hne
    simp only [CircularBuffer.peek_tail]
    rw [h3, if_pos (by omega)]
    rw [h4, show c - 1 + vs.length = (vs.length - 1) + c by omega, Nat.add_mod_right]
    have h50 := h5 0 (by omega)
    simp only [Nat.sub_zero] at h50
    rw [h50]
  refine ⟨htail_fact, ?_, rfl, rfl⟩
  intro hlc
  have hne : vs ≠ [] := by
    intro h
    rw [h] at hlc
    simp only [List.length_nil] at hlc
    omega
  refine ⟨?_, ?_⟩
  · have hlen : (CircularBuffer.insertList (CircularBuffer.mk0 α c) vs).len = c := by
      rw [h3, hlc]; omega
    have htl : (CircularBuffer.insertList (CircularBuffer.mk0 α c) vs).tail = c - 1 := by
      rw [h4, hlc, Nat.add_mod_right, Nat.mod_eq_of_lt (by omega)]
    have hhead : (CircularBuffer.insertList (CircularBuffer.mk0 α c) vs).head = some 0 := by
      simp only [CircularBuffer.head]
      rw [hlen, htl, if_neg (by omega)]
      congr 1
      rw [show c - 1 + c + 1 = c + c by omega, Nat.add_mod_right, Nat.mod_self]
    simp only [CircularBuffer.peek_head]
    rw [hlen, if_pos (by omega), hhead]
    simp only [Option.map_some']
    have h5c := h5 (c - 1) (by omega)
    have e : vs.length - 1 - (c - 1) = 0 := by omega
    rw [e, Nat.zero_mod] at h5c
    rw [h5c]
  · have ht := htail_fact hne
    rw [hlc] at ht
    exact ht

/-- Witness for C5 at capacity 3 with the freshly-full sequence 7, 8, 9. -/
theorem peek_tail_peek_head_spec_witness :
    ([7, 8, 9] ≠ ([] : List Int) →
      (CircularBuffer.insertList (CircularBuffer.mk0 Int 3) [7, 8, 9]).peek_tail
        = some ([7, 8, 9].getD ([7, 8, 9].length - 1) default))
    ∧ ([7, 8, 9].length = 3 →
        (CircularBuffer.insertList (CircularBuffer.mk0 Int 3) [7, 8, 9]).peek_head
            = some ([7, 8, 9].getD 0 default)
        ∧ (CircularBuffer.insertList (CircularBuffer.mk0 Int 3) [7, 8, 9]).peek_tail
            = some ([7, 8, 9].getD (3 - 1) default))
    ∧ (CircularBuffer.mk0 Int 3).peek_tail = none
    ∧ (CircularBuffer.mk0 Int 3).peek_head = none :=
  peek_tail_peek_head_spec 3 (by omega) [7, 8, 9]

/-- C6: the indexing operator walks the retained window in insertion order
from the oldest element: for a buffer built by inserting `vs` into a fresh
capacity-`c` buffer, whose length is `min vs.length c`, position `i` below
the length yields the value inserted `length - i` steps from the end, and
any `i` at or beyond the length fails the bounds assertion. -/
theorem index_insertion_order {α : Type} [Inhabited α] (c : Nat) (hc : 0 < c)
    (vs : List α) (i : Nat) :
    (i < min vs.length c →
      (CircularBuffer.insertList (CircularBuffer.mk0 α c) vs).index i
        = some (vs.getD (vs.length - min vs.length c + i) default))
    ∧ (min vs.length c ≤ i →
      (CircularBuffer.insertList (CircularBuffer.mk0 α c) vs).index i = none) := by
  obtain ⟨h1, h2, h3, h4, h5⟩ := CircularBuffer.insertList_spec c hc vs
  constructor
  · intro hi
    have hk1 : 1 ≤ vs.length := by omega
    rcases Nat.le_total vs.length c with hkc | hck
    · -- not yet wrapped: length is vs.length, head slot is 0
      have hmin : min vs.length c = vs.length := by omega
      rw [hmin] at hi ⊢
      have hlen : (CircularBuffer.insertList (CircularBuffer.mk0 α c) vs).len
          = vs.length := by rw [h3, hmin]
      have htl : (CircularBuffer.insertList (CircularBuffer.mk0 α c) vs).tail
          = vs.length - 1 := by
        rw [h4, show c - 1 + vs.length = (vs.length - 1) + c by omega, Nat.add_mod_right,
          Nat.mod_eq_of_lt (by omega)]
      have hhead : (CircularBuffer.insertList (CircularBuffer.mk0 α c) vs).head
          = some 0 := by
        simp only [CircularBuffer.head]
        rw [hlen, htl, if_neg (by omega)]
        congr 1
        rw [show vs.length - 1 + vs.length + 1 = vs.length + vs.length by omega,
          Nat.add_mod_right, Nat.mod_self]
      simp only [CircularBuffer.index]
      rw [hlen, if_pos hi, hhead]
      simp only [Option.map_some']
      rw [Nat.zero_add, Nat.mod_eq_of_lt hi]
      have h5i := h5 (vs.length - 1 - i) (by omega)
      have e : vs.length - 1 - (vs.length - 1 - i) = i := by omega
      rw [e, Nat.mod_eq_of_lt (by omega)] at h5i
      rw [h5i, show vs.length - vs.length + i = i by omega]
    · -- wrapped and full: length is c
      have hmin : min vs.length c = c := by omega
      rw [hmin] at hi ⊢
      have hlen : (CircularBuffer.insertList (CircularBuffer.mk0 α c) vs).len = c := by
        rw [h3, hmin]
      have htl : (CircularBuffer.insertList (CircularBuffer.mk0 α c) vs).tail
          = (vs.length - 1) % c := by
        rw [h4, show c - 1 + vs.length = (vs.length - 1) + c by omega, Nat.add_mod_right]
      have hhead : (CircularBuffer.insertList (CircularBuffer.mk0 α c) vs).head
          = some (((vs.length - 1) % c + 1) % c) := by
        simp only [CircularBuffer.head]
        rw [hlen, htl, if_neg (by omega)]
        congr 1
        rw [show (vs.length - 1) % c + c + 1 = ((vs.length - 1) % c + 1) + c by omega,
          Nat.add_mod_right]
      simp only [CircularBuffer.index]
      rw [hlen, if_pos hi, hhead]
      simp only [Option.map_some']
      have hidx : (((vs.length - 1) % c + 1) % c + i) % c = (vs.length - c + i) % c := by
        rw [Nat.mod_add_mod, Nat.add_assoc, Nat.mod_add_mod,
          show vs.length - 1 + (1 + i) = (vs.length - c + i) + c by omega, Nat.add_mod_right]
      rw [hidx]
      have h5i := h5 (c - 1 - i) (by omega)
      have e : vs.length - 1 - (c - 1 - i) = vs.length - c + i := by omega
      rw [e] at h5i
      rw [h5i]
  · intro hi
    simp only [CircularBuffer.index]
    rw [h3, if_neg (by omega)]

/-- Witness for C6 at capacity 3, inserts 1..5, index 1 (in range) — the
out-of-range half is witnessed by the same instantiation via `i = 1 < 3`. -/
theorem index_insertion_order_witness :
    (1 < min [1, 2, 3, 4, 5].length 3 →
      (CircularBuffer.insertList (CircularBuffer.mk0 Int 3) [1, 2, 3, 4, 5]).index 1
        = some ([1, 2, 3, 4, 5].getD
            ([1, 2, 3, 4, 5].length - min [1, 2, 3, 4, 5].length 3 + 1) default))
    ∧ (min [1, 2, 3, 4, 5].length 3 ≤ 1 →
      (CircularBuffer.insertList (CircularBuffer.mk0 Int 3) [1, 2, 3, 4, 5]).index 1 = none) :=
  index_insertion_order (α := Int) 3 (by omega) [1, 2, 3, 4, 5] 1

/-- C1 (divergence witness): the code rejects only `n > len`, not
`n >= len`.  In the spec's own scenario — capacity 10, inserts 1..13 —
`peek_from_end 10` must be absent (`10 >= length = 10`), but the code
returns the tail element 13 again. -/
theorem peek_from_end_at_length_not_rejected :
    (CircularBuffer.insertList (CircularBuffer.mk0 Int 10)
        [1, 2, 3, 4, 5, 6, 7, 8, 9, 10, 11, 12, 13]).peek_from_end 10 = some 13
    ∧ (CircularBuffer.insertList (CircularBuffer.mk0 Int 10)
        [1, 2, 3, 4, 5, 6, 7, 8, 9, 10, 11, 12, 13]).len = 10 := by
  constructor <;> decide

/-- C10: `head` evaluates `(tail + len + 1) % len`, whose divisor is `len`
itself, so it panics (modelled as `none`) exactly on an empty buffer; the
guarded `peek_head` instead returns `none` without reaching the modulus. -/
theorem head_empty_panic {α : Type} [Inhabited α] (b : CircularBuffer α) :
    (b.head = none ↔ b.len = 0) ∧ (b.len = 0 → b.peek_head = none) := by
  refine ⟨⟨?_, ?_⟩, ?_⟩
  · intro h
    by_contra hne
    simp [CircularBuffer.head, hne] at h
  · intro h
    simp [CircularBuffer.head, h]
  · intro h
    simp [CircularBuffer.peek_head, h]

/-- Witness for C10 on the concrete empty buffer of capacity 4. -/
theorem head_empty_panic_witness :
    ((CircularBuffer.mk0 Int 4).head = none ↔ (CircularBuffer.mk0 Int 4).len = 0)
    ∧ ((CircularBuffer.mk0 Int 4).len = 0 → (CircularBuffer.mk0 Int 4).peek_head = none) :=
  head_empty_panic (CircularBuffer.mk0 Int 4)

/-- Offsets below the capacity are recovered from their residues. -/
theorem add_mod_inj_le (c f j1 j2 : Nat) (h2 : j2 < c) (hle : j1 ≤ j2)
    (h : (f + j1) % c = (f + j2) % c) : j1 = j2 := by
  have h4 : f + j1 ≡ f + j2 [MOD c] := h
  have h5 := (Nat.modEq_iff_dvd' (by omega)).mp h4
  have e : f + j2 - (f + j1) = j2 - j1 := by omega
  rw [e] at h5
  rcases Nat.eq_zero_or_pos (j2 - j1) with h0 | hpos
  · omega
  · have h6 := Nat.le_of_dvd hpos h5
    omega

/-- Injectivity of `(f + j) % c` on offsets `j < c`. -/
theorem add_mod_inj (c f j1 j2 : Nat) (h1 : j1 < c) (h2 : j2 < c)
    (h : (f + j1) % c = (f + j2) % c) : j1 = j2 := by
  rcases Nat.le_total j1 j2 with hle | hle
  · exact add_mod_inj_le c f j1 j2 h2 hle h
  · exact (add_mod_inj_le c f j2 j1 h1 hle h.symm).symm

/-- Pushing never changes the capacity field. -/
theorem push_cap {α : Type} (q : StaticSizeQueue α) (v : α) :
    (q.push v).2.cap = q.cap := by
  by_cases h : q.size = q.cap <;> simp [StaticSizeQueue.push, h]

/-- Popping never changes the capacity field. -/
theorem pop_cap {α : Type} [Inhabited α] (q : StaticSizeQueue α) :
    (q.pop).2.cap = q.cap := by
  by_cases h : q.is_empty <;> simp [StaticSizeQueue.pop, h]

/-- Simulation step for `push`: below capacity, a push succeeds and the
queue now represents the old list with the value appended. -/
theorem push_sim {α : Type} [Inhabited α] (q : StaticSizeQueue α) (l : List α) (v : α)
    (hinv : SQInv q l) (hlt : l.length < q.cap) :
    (q.push v).1 = Except.ok () ∧ SQInv (q.push v).2 (l ++ [v]) := by
  obtain ⟨hb, hf, hs, hle, hback, hcont⟩ := hinv
  have hcap : 0 < q.cap := by omega
  have hfull : ¬ q.size = q.cap := by omega
  constructor
  · simp [StaticSizeQueue.push, hfull]
  · simp only [StaticSizeQueue.push, if_neg hfull]
    refine ⟨?_, ?_, ?_, ?_, ?_, ?_⟩
    · simpa [List.length_set] using hb
    · exact hf
    · simp [hs]
    · simp only [List.length_append, List.length_singleton]
      omega
    · simp only [List.length_append, List.length_singleton]
      rw [hback, Nat.mod_add_mod, Nat.add_assoc]
    · intro j hj
      simp only [List.length_append, List.length_singleton] at hj
      rcases Nat.lt_or_ge j l.length with hjl | hjl
      · have hne : q.back ≠ (q.front + j) % q.cap := by
          rw [hback]
          intro h
          have := add_mod_inj q.cap q.front l.length j (by omega) (by omega) h
          omega
        rw [getD_set_ne _ _ _ _ _ hne, hcont j hjl,
          getD_append_left _ _ _ _ (by omega)]
      · have hj_eq : j = l.length := by omega
        subst hj_eq
        rw [← hback]
        rw [getD_set_self _ _ _ _ (by rw [hb, hback]; exact Nat.mod_lt _ hcap)]
        exact (getD_append_last l v default).symm

/-- Simulation step for `pop`: on a non-empty queue, a pop returns the
front value and the queue now represents the tail of the list. -/
theorem pop_sim {α : Type} [Inhabited α] (q : StaticSizeQueue α) (v : α) (l : List α)
    (hinv : SQInv q (v :: l)) :
    (q.pop).1 = Except.ok v ∧ SQInv (q.pop).2 l := by
  obtain ⟨hb, hf, hs, hle, hback, hcont⟩ := hinv
  simp only [List.length_cons] at hs hle hback
  have hcap : 0 < q.cap := by omega
  have hnemp : q.is_empty = false := by
    simp [StaticSizeQueue.is_empty, hs]
  have hfront_val := hcont 0 (by simp)
  rw [Nat.add_zero, Nat.mod_eq_of_lt hf] at hfront_val
  simp only [List.getD_cons_zero] at hfront_val
  constructor
  · simp only [StaticSizeQueue.pop, hnemp, Bool.false_eq_true, if_false, hfront_val]
  · simp only [StaticSizeQueue.pop, hnemp, Bool.false_eq_true, if_false]
    refine ⟨?_, ?_, ?_, ?_, ?_, ?_⟩
    · simpa [List.length_set] using hb
    · exact Nat.mod_lt _ hcap
    · simp [hs]
    · show l.length ≤ q.cap
      omega
    · rw [hback, Nat.mod_add_mod, show q.front + 1 + l.length = q.front + (l.length + 1) by omega]
    · intro j hj
      have hidx : ((q.front + 1) % q.cap + j) % q.cap = (q.front + (1 + j)) % q.cap := by
        rw [Nat.mod_add_mod, Nat.add_assoc]
      rw [hidx]
      have hne : q.front ≠ (q.front + (1 + j)) % q.cap := by
        intro h
        have h0 : (q.front + 0) % q.cap = (q.front + (1 + j)) % q.cap := by
          rw [Nat.add_zero, Nat.mod_eq_of_lt hf]
          exact h
        have := add_mod_inj q.cap q.front 0 (1 + j) (by omega) (by omega) h0
        omega
      rw [getD_set_ne _ _ _ _ _ hne]
      have hcj := hcont (j + 1) (by simp; omega)
      simp only [List.getD_cons_succ] at hcj
      rw [show q.front + (1 + j) = q.front + (j + 1) by omega]
      exact hcj

/-- Pushing a whole list that fits in the remaining space succeeds, and the
queue then represents the old contents followed by the pushed values. -/
theorem pushList_sim {α : Type} [Inhabited α] (vs : List α) (q : StaticSizeQueue α)
    (l : List α) (hinv : SQInv q l) (hlen : l.length + vs.length ≤ q.cap) :
    (q.pushList vs).1 = Except.ok () ∧ SQInv (q.pushList vs).2 (l ++ vs) := by
  induction vs generalizing q l with
  | nil =>
    exact ⟨rfl, by simpa using hinv⟩
  | cons v vs ih =>
    obtain ⟨h1, h2⟩ := push_sim q l v hinv
      (by simp only [List.length_cons] at hlen; omega)
    obtain ⟨q2, hq2eq⟩ : ∃ q2, q.push v = (Except.ok (), q2) :=
      ⟨(q.push v).2, by rw [← h1]⟩
    have h2' : SQInv q2 (l ++ [v]) := by
      rw [hq2eq] at h2
      exact h2
    have hcap2 : q2.cap = q.cap := by
      have h4 := push_cap q v
      rw [hq2eq] at h4
      exact h4
    have hih := ih q2 (l ++ [v]) h2'
      (by
        rw [hcap2]
        simp only [List.length_append, List.length_singleton, List.length_nil,
          List.length_cons] at hlen ⊢
        omega)
    constructor
    · simp only [StaticSizeQueue.pushList, hq2eq]
      exact hih.1
    · simp only [StaticSizeQueue.pushList, hq2eq]
      have h3 := hih.2
      rwa [List.append_assoc, List.singleton_append] at h3

/-- Popping as many times as the queue holds returns exactly the
represented list in order and leaves the empty queue. -/
theorem popN_sim {α : Type} [Inhabited α] (l : List α) (q : StaticSizeQueue α)
    (hinv : SQInv q l) :
    (q.popN l.length).1 = Except.ok l ∧ SQInv (q.popN l.length).2 [] := by
  induction l generalizing q with
  | nil =>
    exact ⟨rfl, hinv⟩
  | cons v l ih =>
    obtain ⟨h1, h2⟩ := pop_sim q v l hinv
    obtain ⟨q2, hq2eq⟩ : ∃ q2, q.pop = (Except.ok v, q2) :=
      ⟨(q.pop).2, by rw [← h1]⟩
    have h2' : SQInv q2 l := by
      rw [hq2eq] at h2
      exact h2
    have hih := ih q2 h2'
    obtain ⟨q3, hq3eq⟩ : ∃ q3, q2.popN l.length = (Except.ok l, q3) :=
      ⟨(q2.popN l.length).2, by rw [← hih.1]⟩
    have h5 : SQInv q3 [] := by
      have h6 := hih.2
      rw [hq3eq] at h6
      exact h6
    constructor
    · simp only [List.length_cons, StaticSizeQueue.popN, hq2eq, hq3eq]
    · simp only [List.length_cons, StaticSizeQueue.popN, hq2eq, hq3eq]
      exact h5

/-- C7: starting from any empty queue state of capacity `c ≥ 1` — the front
and back indices may sit anywhere in range, so this also covers states whose
indices have already wrapped past the end of storage — pushing `n ≤ c`
values and then popping `n` times succeeds, returns exactly the pushed
values in FIFO order, and leaves the queue empty. -/
theorem queue_fifo_round_trip {α : Type} [Inhabited α] (c f : Nat) (hc : 0 < c)
    (hf : f < c) (buff : List α) (hb : buff.length = c) (vs : List α)
    (hn : vs.length ≤ c) :
    (StaticSizeQueue.pushList ⟨buff, f, 0, f, c⟩ vs).1 = Except.ok ()
    ∧ ((StaticSizeQueue.pushList ⟨buff, f, 0, f, c⟩ vs).2.popN vs.length).1
        = Except.ok vs
    ∧ ((StaticSizeQueue.pushList ⟨buff, f, 0, f, c⟩ vs).2.popN vs.length).2.is_empty
        = true := by
  have hinv0 : SQInv (⟨buff, f, 0, f, c⟩ : StaticSizeQueue α) [] := by
    refine ⟨hb, hf, rfl, by simp, ?_, ?_⟩
    · show f = (f + 0) % c
      rw [Nat.add_zero, Nat.mod_eq_of_lt hf]
    · intro j hj
      exact absurd hj (by simp)
  have hpush := pushList_sim vs _ [] hinv0 (by simpa using hn)
  have hpop := popN_sim vs _ (by simpa using hpush.2)
  refine ⟨hpush.1, hpop.1, ?_⟩
  obtain ⟨_, _, hsz, _⟩ := hpop.2
  simp only [List.length_nil] at hsz
  simp [StaticSizeQueue.is_empty, hsz]

/-- Witness for C7 at capacity 3, with the front and back indices starting
at 2 so that the round trip wraps past the end of storage. -/
theorem queue_fifo_round_trip_witness :
    (StaticSizeQueue.pushList (⟨[0, 0, 0], 2, 0, 2, 3⟩ : StaticSizeQueue Int)
        [4, 5, 6]).1 = Except.ok ()
    ∧ ((StaticSizeQueue.pushList (⟨[0, 0, 0], 2, 0, 2, 3⟩ : StaticSizeQueue Int)
          [4, 5, 6]).2.popN [4, 5, 6].length).1 = Except.ok [4, 5, 6]
    ∧ ((StaticSizeQueue.pushList (⟨[0, 0, 0], 2, 0, 2, 3⟩ : StaticSizeQueue Int)
          [4, 5, 6]).2.popN [4, 5, 6].length).2.is_empty = true :=
  queue_fifo_round_trip 3 2 (by omega) (by omega) [0, 0, 0] (by decide) [4, 5, 6] (by decide)

/-- C8: a push succeeds exactly when the size is below the capacity (for any
state respecting `size ≤ cap`); a push on a full queue returns `QueueFull`
and leaves the state — size, contents, indices — unchanged, the rejected
item nowhere written; and pushing `c` values (or fewer) into a fresh empty
queue of capacity `c ≥ 1` succeeds throughout. -/
theorem push_capacity_boundary {α : Type} [Inhabited α] (q : StaticSizeQueue α)
    (hq : q.size ≤ q.cap) (v : α) (c : Nat) (hc : 0 < c) (vs : List α)
    (hvs : vs.length ≤ c) :
    ((q.push v).1 = Except.ok () ↔ q.size < q.cap)
    ∧ (q.size = q.cap → q.push v = (Except.error QueueError.QueueFull, q))
    ∧ ((StaticSizeQueue.new α c).pushList vs).1 = Except.ok () := by
  refine ⟨⟨?_, ?_⟩, ?_, ?_⟩
  · intro h
    by_contra hge
    have heq : q.size = q.cap := by omega
    simp [StaticSizeQueue.push, heq] at h
  · intro h
    have hne : ¬ q.size = q.cap := by omega
    simp [StaticSizeQueue.push, hne]
  · intro h
    simp [StaticSizeQueue.push, h]
  · have hinv0 : SQInv (StaticSizeQueue.new α c) [] := by
      refine ⟨by simp [StaticSizeQueue.new], ?_, rfl, by simp, ?_, ?_⟩
      · exact hc
      · show (0 : Nat) = (0 + 0) % c
        simp
      · intro j hj
        exact absurd hj (by simp)
    exact (pushList_sim vs _ [] hinv0 (by simpa using hvs)).1

/-- Witness for C8 on a concrete full queue of capacity 2 and a fresh
capacity-2 queue receiving two pushes. -/
theorem push_capacity_boundary_witness :
    (((⟨[4, 5], 0, 2, 0, 2⟩ : StaticSizeQueue Int).push 7).1 = Except.ok ()
        ↔ (⟨[4, 5], 0, 2, 0, 2⟩ : StaticSizeQueue Int).size
            < (⟨[4, 5], 0, 2, 0, 2⟩ : StaticSizeQueue Int).cap)
    ∧ ((⟨[4, 5], 0, 2, 0, 2⟩ : StaticSizeQueue Int).size
          = (⟨[4, 5], 0, 2, 0, 2⟩ : StaticSizeQueue Int).cap →
        (⟨[4, 5], 0, 2, 0, 2⟩ : StaticSizeQueue Int).push 7
          = (Except.error QueueError.QueueFull, ⟨[4, 5], 0, 2, 0, 2⟩))
    ∧ ((StaticSizeQueue.new Int 2).pushList [8, 9]).1 = Except.ok () :=
  push_capacity_boundary (⟨[4, 5], 0, 2, 0, 2⟩ : StaticSizeQueue Int) (by decide) 7 2
    (by omega) [8, 9] (by decide)

/-- C9: a pop fails with `QueueEmpty` exactly when the size is zero — in
particular on a freshly constructed queue — and an error leaves the state
untouched; a successful pop returns the front slot's value, resets that slot
to the default value, advances the front index modulo the capacity, and
decrements the size. -/
theorem pop_empty_boundary {α : Type} [Inhabited α] (q : StaticSizeQueue α) (c : Nat) :
    ((q.pop).1 = Except.error QueueError.QueueEmpty ↔ q.size = 0)
    ∧ (q.size = 0 → q.pop = (Except.error QueueError.QueueEmpty, q))
    ∧ (0 < q.size →
        q.pop = (Except.ok (q.buff.getD q.front default),
          { q with buff := q.buff.set q.front default,
                   front := (q.front + 1) % q.cap,
                   size := q.size - 1 }))
    ∧ (StaticSizeQueue.new α c).pop
        = (Except.error QueueError.QueueEmpty, StaticSizeQueue.new α c) := by
  refine ⟨⟨?_, ?_⟩, ?_, ?_, ?_⟩
  · intro h
    by_contra hne
    have hb : q.is_empty = false := by
      simp [StaticSizeQueue.is_empty]
      omega
    simp [StaticSizeQueue.pop, hb] at h
  · intro h
    have hb : q.is_empty = true := by simp [StaticSizeQueue.is_empty, h]
    simp [StaticSizeQueue.pop, hb]
  · intro h
    have hb : q.is_empty = true := by simp [StaticSizeQueue.is_empty, h]
    simp [StaticSizeQueue.pop, hb]
  · intro h
    have hb : q.is_empty = false := by
      simp [StaticSizeQueue.is_empty]
      omega
    simp [StaticSizeQueue.pop, hb]
  · have hb : (StaticSizeQueue.new α c).is_empty = true := by
      simp [StaticSizeQueue.is_empty, StaticSizeQueue.new]
    simp [StaticSizeQueue.pop, hb]

/-- Witness for C9 on a concrete one-element queue of capacity 1 and a
fresh queue of capacity 2. -/
theorem pop_empty_boundary_witness :
    (((⟨[5], 0, 1, 0, 1⟩ : StaticSizeQueue Int).pop).1
          = Except.error QueueError.QueueEmpty
        ↔ (⟨[5], 0, 1, 0, 1⟩ : StaticSizeQueue Int).size = 0)
    ∧ ((⟨[5], 0, 1, 0, 1⟩ : StaticSizeQueue Int).size = 0 →
        (⟨[5], 0, 1, 0, 1⟩ : StaticSizeQueue Int).pop
          = (Except.error QueueError.QueueEmpty, ⟨[5], 0, 1, 0, 1⟩))
    ∧ (0 < (⟨[5], 0, 1, 0, 1⟩ : StaticSizeQueue Int).size →
        (⟨[5], 0, 1, 0, 1⟩ : StaticSizeQueue Int).pop
          = (Except.ok ((⟨[5], 0, 1, 0, 1⟩ : StaticSizeQueue Int).buff.getD
                (⟨[5], 0, 1, 0, 1⟩ : StaticSizeQueue Int).front default),
              { (⟨[5], 0, 1, 0, 1⟩ : StaticSizeQueue Int) with
                  buff := (⟨[5], 0, 1, 0, 1⟩ : StaticSizeQueue Int).buff.set
                    (⟨[5], 0, 1, 0, 1⟩ : StaticSizeQueue Int).front default,
                  front := ((⟨[5], 0, 1, 0, 1⟩ : StaticSizeQueue Int).front + 1)
                    % (⟨[5], 0, 1, 0, 1⟩ : StaticSizeQueue Int).cap,
                  size := (⟨[5], 0, 1, 0, 1⟩ : StaticSizeQueue Int).size - 1 }))
    ∧ (StaticSizeQueue.new Int 2).pop
        = (Except.error QueueError.QueueEmpty, StaticSizeQueue.new Int 2) :=
  pop_empty_boundary (⟨[5], 0, 1, 0, 1⟩ : StaticSizeQueue Int) 2

/-- C2 (counterexample): `StaticSizeQueue::new(0)` does not signal any
construction error — there is no capacity check in the constructor — and
instead yields a degenerate zero-capacity queue on which every push fails
with `QueueFull` and every pop fails with `QueueEmpty`. -/
theorem new_zero_queue_constructs :
    StaticSizeQueue.new Int 0
        = { buff := [], front := 0, size := 0, back := 0, cap := 0 }
    ∧ ((StaticSizeQueue.new Int 0).push 5).1 = Except.error QueueError.QueueFull
    ∧ ((StaticSizeQueue.new Int 0).pop).1 = Except.error QueueError.QueueEmpty :=
  ⟨rfl, rfl, rfl⟩

/-- C2 (amended): `CircularBuffer::new(0)` fails its construction assertion
(and any positive capacity is accepted), while `StaticSizeQueue::new`
performs no validation: `new(0)` succeeds and returns a degenerate
permanently-full, permanently-empty queue. -/
theorem construction_validation_amended (c : Nat) (hc : 0 < c) (v : Int) :
    CircularBuffer.new Int 0 = none
    ∧ CircularBuffer.new Int c = some (CircularBuffer.mk0 Int c)
    ∧ ((StaticSizeQueue.new Int 0).push v).1 = Except.error QueueError.QueueFull
    ∧ ((StaticSizeQueue.new Int 0).pop).1 = Except.error QueueError.QueueEmpty := by
  refine ⟨rfl, ?_, rfl, rfl⟩
  simp [CircularBuffer.new, hc]

/-- Witness for the amended C2 at capacity 3. -/
theorem construction_validation_amended_witness :
    CircularBuffer.new Int 0 = none
    ∧ CircularBuffer.new Int 3 = some (CircularBuffer.mk0 Int 3)
    ∧ ((StaticSizeQueue.new Int 0).push 9).1 = Except.error QueueError.QueueFull
    ∧ ((StaticSizeQueue.new Int 0).pop).1 = Except.error QueueError.QueueEmpty :=
  construction_validation_amended 3 (by omega) 9
